import Mathlib

/-!
Verification of the vaultwarden-syncer replication core against its
specification.

This file shallowly embeds the relevant parts of the Go sources:

* internal/backup/backup.go  (CreateBackup, createZipArchive, encryptData,
  DecryptData, ExtractBackup)
* internal/sync/sync.go      (uploadWithBackoff, SyncToStorage,
  ConcurrentSyncToStorages, updateJobStatus)
* internal/storage/webdav.go (Upload)
* internal/cleanup/cleanup.go (CleanupOldSyncJobs)

Byte strings are modelled as lists of naturals.  Calls into external
libraries (archive/zip, crypto/cipher AES-GCM, x/crypto/pbkdf2) are
modelled as parameters of the embedded functions; the theorems assume
exactly the documented contracts of those libraries at the points where
the code relies on them, and the concrete witness instances discharge
those assumptions by computation.
-/

namespace Syncer

abbrev Bytes := List Nat

/-- Bytes of a Go string (the `[]byte(s)` conversion); modelled through the
character codes, which is an injective rendering of the string. -/
def strBytes (s : String) : Bytes :=
  s.toList.map Char.toNat

/-- `strings.Contains`: does `s` contain `pat` as a contiguous substring? -/
def containsSub : List Char → List Char → Bool
  | [], pat => pat.isEmpty
  | c :: rest, pat => pat.isPrefixOf (c :: rest) || containsSub rest pat

/-- `strings.Contains` on strings. -/
def stringContains (s pat : String) : Bool :=
  containsSub s.toList pat.toList

/-- `strings.Replace(s, pat, rep, 1)`: replace the first occurrence only. -/
def replaceFirstAux (pat rep : List Char) : List Char → List Char
  | [] => []
  | c :: rest =>
    if pat.isPrefixOf (c :: rest) then rep ++ (c :: rest).drop pat.length
    else c :: replaceFirstAux pat rep rest

/-- `strings.Replace(s, pat, rep, 1)` on strings. -/
def replaceFirst (s pat rep : String) : String :=
  String.mk (replaceFirstAux pat.toList rep.toList s.toList)

/-- `filepath.Join(dest, name)`.  For the names reaching it in
`ExtractBackup` (no `..`), cleaning does not move the result out of
`dest`, so the model is the plain separator join. -/
def joinPath (dest name : String) : String :=
  String.mk (dest.toList ++ '/' :: name.toList)

/-- One entry of a ZIP archive as exposed by `archive/zip`:
its name, whether it is a directory entry, and its decompressed bytes. -/
structure ZipEntry where
  name : String
  isDir : Bool
  content : Bytes
deriving DecidableEq, Repr

/-- The external `archive/zip` library: `enc` is what `zip.NewWriter`
produces from the entry sequence written into it, `dec` is what
`zip.NewReader` recovers (`none` models a "not a valid zip" error). -/
structure ZipModel where
  enc : List ZipEntry → Bytes
  dec : Bytes → Option (List ZipEntry)

/-- The external crypto libraries used by backup.go:
`kdf password salt iterations keyLen` is `pbkdf2.Key`;
`aeadSeal key nonce plaintext aad` is the sealed output appended by
`cipher.AEAD.Seal` (ciphertext plus tag); `aeadOpen key nonce ct aad` is
`cipher.AEAD.Open` with `none` modelling the authentication error. -/
structure CryptoModel where
  kdf : Bytes → Bytes → Nat → Nat → Bytes
  aeadSeal : Bytes → Bytes → Bytes → Bytes → Bytes
  aeadOpen : Bytes → Bytes → Bytes → Bytes → Option Bytes

/-- `backup.Service` (backup.go lines 21-25). -/
structure Service where
  vaultwardenDataPath : String
  compressionLevel : Int
  password : String

/-- A vault data directory: its regular files as
(path relative to the data root, contents) in walk order.
`filepath.Walk` visits only these for archiving (directories are
skipped, backup.go lines 74-76). -/
abbrev DataDir := List (String × Bytes)

/-- The zip entries `createZipArchive` writes: one regular-file entry per
walked file, named by its relative path (backup.go lines 78-95). -/
def dirEntries (dir : DataDir) : List ZipEntry :=
  dir.map fun f => ⟨f.1, false, f.2⟩

/-- `createZipArchive` (backup.go lines 65-97): the zip bytes of the
walked regular files. -/
def createZipArchive (Z : ZipModel) (dir : DataDir) : Bytes :=
  Z.enc (dirEntries dir)

/-- `encryptData` (backup.go lines 99-129).  `salt` and `nonce` are the
32- and 12-byte random draws.  `gcm.Seal(nonce, nonce, data, nil)`
appends the sealed bytes to its `dst` argument `nonce`, with empty
(nil) additional authenticated data; the result buffer is
`salt` followed by that ciphertext. -/
def encryptData (C : CryptoModel) (password : String) (salt nonce : Bytes)
    (data : Bytes) : Bytes :=
  let key := C.kdf (strBytes password) salt 10000 32
  let ciphertext := nonce ++ C.aeadSeal key nonce data []
  salt ++ ciphertext

/-- `DecryptData` (backup.go lines 131-162).  The nonce size of
`cipher.NewGCM` is 12 bytes. -/
def DecryptData (C : CryptoModel) (s : Service) (data : Bytes) :
    Except String Bytes :=
  if s.password = "" then .error "no password set for decryption"
  else if data.length < 32 then .error "encrypted data too short"
  else
    let salt := data.take 32
    let ct := data.drop 32
    let key := C.kdf (strBytes s.password) salt 10000 32
    if ct.length < 12 then .error "ciphertext too short"
    else
      match C.aeadOpen key (ct.take 12) (ct.drop 12) [] with
      | some pt => .ok pt
      | none => .error "cipher: message authentication failed"

/-- The per-entry extraction loop of `ExtractBackup` (backup.go lines
183-219): entries whose name contains `..` are skipped
(`strings.Contains(file.Name, "..")`), directory entries only create
directories, and each remaining file entry is written to
`filepath.Join(destPath, file.Name)`.  The result is the list of file
writes performed, in order. -/
def extractEntries (dest : String) : List ZipEntry → List (String × Bytes)
  | [] => []
  | f :: rest =>
    if stringContains f.name ".." then extractEntries dest rest
    else if f.isDir then extractEntries dest rest
    else (joinPath dest f.name, f.content) :: extractEntries dest rest

/-- The zip-reading tail of `ExtractBackup` (backup.go lines 178-221):
parse the zip, then run the extraction loop.  Returns the file writes
performed and the error, if any. -/
def extractZip (Z : ZipModel) (zipData : Bytes) (dest : String) :
    List (String × Bytes) × Option String :=
  match Z.dec zipData with
  | none => ([], some "failed to create zip reader")
  | some entries => (extractEntries dest entries, none)

/-- `ExtractBackup` (backup.go lines 164-222): read all input bytes,
decrypt when a password is configured and the input is longer than 32
bytes, then unzip and extract.  Returns the file writes performed and
the error, if any; a decryption failure happens before any write. -/
def ExtractBackup (C : CryptoModel) (Z : ZipModel) (s : Service)
    (data : Bytes) (destPath : String) :
    List (String × Bytes) × Option String :=
  if s.password ≠ "" ∧ data.length > 32 then
    match DecryptData C s data with
    | .error e => ([], some ("failed to decrypt backup: " ++ e))
    | .ok zipData => extractZip Z zipData destPath
  else extractZip Z data destPath

/-! ### Wall-clock timestamps

`CreateBackup` calls `time.Now().Format("20060102-150405")`.  A Go
`time.Time` carries a location; `Format` renders the wall clock in that
location, i.e. at `unixSeconds + offsetSeconds`.  The rendering is
modelled by the standard civil-from-days conversion. -/

/-- A Go `time.Time`: absolute seconds since the Unix epoch plus the
location's offset from UTC in seconds. -/
structure GoTime where
  unixSeconds : Int
  offsetSeconds : Int

/-- Decimal digit character for `n % 10`. -/
def digitChar (n : Nat) : Char :=
  ['0', '1', '2', '3', '4', '5', '6', '7', '8', '9'].getD (n % 10) '0'

/-- Civil date (year, month, day) from days since 1970-01-01
(non-negative), by the standard Gregorian conversion. -/
def civilFromDays (days : Nat) : Nat × Nat × Nat :=
  let z := days + 719468
  let era := z / 146097
  let doe := z % 146097
  let yoe := (doe - doe / 1460 + doe / 36524 - doe / 146096) / 365
  let doy := doe - (365 * yoe + yoe / 4 - yoe / 100)
  let mp := (5 * doy + 2) / 153
  let d := doy - (153 * mp + 2) / 5 + 1
  let m := if mp < 10 then mp + 3 else mp - 9
  (yoe + era * 400 + (if m ≤ 2 then 1 else 0), m, d)

/-- The characters of `Format("20060102-150405")` applied to a wall-clock
second count (seconds since the epoch in the rendered zone). -/
def timestampChars (wall : Nat) : List Char :=
  let days := wall / 86400
  let rem := wall % 86400
  let ymd := civilFromDays days
  let y := ymd.1
  let m := ymd.2.1
  let d := ymd.2.2
  let hh := rem / 3600
  let mi := rem % 3600 / 60
  let ss := rem % 60
  [digitChar (y / 1000), digitChar (y / 100), digitChar (y / 10), digitChar y,
   digitChar (m / 10), digitChar m, digitChar (d / 10), digitChar d, '-',
   digitChar (hh / 10), digitChar hh, digitChar (mi / 10), digitChar mi,
   digitChar (ss / 10), digitChar ss]

/-- `t.Format("20060102-150405")`: the wall clock of `t` in its own
location, which is the epoch second count shifted by the offset. -/
def goFormat (t : GoTime) : String :=
  String.mk (timestampChars (t.unixSeconds + t.offsetSeconds).toNat)

/-- `CreateBackup` (backup.go lines 41-63), with the file system walk,
the random draws and the clock made explicit.  Returns the produced
bytes and the filename. -/
def CreateBackup (C : CryptoModel) (Z : ZipModel) (s : Service)
    (dir : DataDir) (salt nonce : Bytes) (now : GoTime) : Bytes × String :=
  let timestamp := goFormat now
  let filename :=
    String.mk ("vaultwarden-backup-".toList ++ timestamp.toList ++ ".zip".toList)
  let data := createZipArchive Z dir
  if s.password ≠ "" then
    (encryptData C s.password salt nonce data, replaceFirst filename ".zip" ".enc")
  else (data, filename)

/-- The timestamp the specification describes: the same wall time rendered
in UTC.  Modelled from the spec's words ("UTC yyyymmdd-HHMMSS"); used to
compare against what the source renders. -/
def specUtcTimestamp (t : GoTime) : String :=
  String.mk (timestampChars t.unixSeconds.toNat)

/-! ### Job ledger (ent SyncJob) and status updates -/

/-- The `syncjob.Status` enum. -/
inductive JobStatus
  | pending
  | running
  | completed
  | failed
deriving DecidableEq, Repr

/-- A SyncJob row (ent/schema/sync_job.go): the columns `updateJobStatus`
can touch plus the immutable `id` and `created_at`. -/
structure Job where
  id : Nat
  status : JobStatus
  message : String
  createdAt : Int
  startedAt : Option Int
  completedAt : Option Int
deriving DecidableEq, Repr

/-- `updateJobStatus` (sync.go lines 403-414): one-row update by ID that
sets the status and message, sets `started_at := now` whenever the new
status is `running`, and `completed_at := now` whenever it is
`completed` or `failed`.  No other column is written. -/
def updateJobStatus (now : Int) (job : Job) (status : JobStatus)
    (message : String) : Job :=
  let base := { job with status := status, message := message }
  if status = .running then { base with startedAt := some now }
  else if status = .completed ∨ status = .failed then
    { base with completedAt := some now }
  else base

/-! ### Retrying upload wrapper -/

/-- The `for i := 0; i <= maxRetries; i++` loop of `uploadWithBackoff`
(sync.go lines 256-287), with the attempt body abstracted as
`op` (indexed by the attempt number, `none` = success, `some e` =
failure).  The job-status update and the backoff sleep between attempts
do not affect the attempt count or the returned error and are elided.
Returns (number of attempts performed, `none` on success or the last
attempt's error, which the code returns wrapped in
"upload failed after %d retries"). -/
def retryLoop {E : Type} (op : Nat → Option E) :
    Nat → Nat → Option E → Nat × Option E
  | _, 0, last => (0, last)
  | i, fuel + 1, _ =>
    match op i with
    | none => (1, none)
    | some e =>
      let r := retryLoop op (i + 1) fuel (some e)
      (r.1 + 1, r.2)

/-- `uploadWithBackoff` (sync.go lines 256-287): up to `maxRetries + 1`
attempts of the upload operation. -/
def uploadWithBackoff {E : Type} (op : Nat → Option E) (maxRetries : Nat) :
    Nat × Option E :=
  retryLoop op 0 (maxRetries + 1) none

/-! ### Fan-out over a shared reader -/

/-- A `bytes.Reader`: the backing bytes and the current read position.
Reading consumes; the position is shared by everyone holding the reader. -/
structure SharedReader where
  data : Bytes
  pos : Nat

/-- `io.ReadAll` on a `bytes.Reader`: returns everything after the current
position and leaves the reader at the end. -/
def readAllShared (r : SharedReader) : Bytes × SharedReader :=
  (r.data.drop r.pos, { r with pos := r.data.length })

/-- The worker uploads of `ConcurrentSyncToStorages` (sync.go lines
129-179): each worker runs `syncToStorageWithBackup`, whose provider
`Upload` performs `io.ReadAll` on the one shared `bytes.Reader` returned
by the single `CreateBackup` call (webdav.go line 62).  The workers are
goroutines; this is one serialization of their reads (any interleaving
hands out each byte at most once).  Returns, per storage ID in order,
the bytes its store received. -/
def fanOutUploads : List Nat → SharedReader → List (Nat × Bytes)
  | [], _ => []
  | sid :: rest, r =>
    let br := readAllShared r
    (sid, br.1) :: fanOutUploads rest br.2

/-- `ConcurrentSyncToStorages` (sync.go lines 129-179): one backup is
created, then every storage worker uploads from the same reader. -/
def ConcurrentSyncToStorages (storageIDs : List Nat) (archive : Bytes) :
    List (Nat × Bytes) :=
  fanOutUploads storageIDs ⟨archive, 0⟩

/-! ### Single-target sync and the nil-reader path -/

/-- The environment `SyncToStorage` runs in: whether the storage row is
enabled, whether the provider reports that the generated
timestamp-derived filename already exists (`checkExistingBackup`,
sync.go lines 227-253), and the bytes `CreateBackup` would produce. -/
structure SyncWorld where
  storageEnabled : Bool
  remoteExists : Bool
  archive : Bytes

/-- What one `SyncToStorage` run did: whether `CreateBackup` ran, the
reader argument handed to the provider `Upload` (`none` models the nil
`io.Reader`), and the outcome. -/
structure SyncTrace where
  backupCreated : Bool
  uploadArg : Option (Option Bytes)
  result : Except String Unit

/-- `io.ReadAll(reader)` as called by the WebDAV `Upload`
(webdav.go lines 61-64) on a possibly-nil reader: a nil interface
dereferences to a runtime panic. -/
def ioReadAll (reader : Option Bytes) : Except String Bytes :=
  match reader with
  | none => .error "runtime error: invalid memory address or nil pointer dereference"
  | some bs => .ok bs

/-- The WebDAV provider `Upload` (webdav.go lines 61-72): it passes its
reader argument straight to `io.ReadAll` and writes the bytes read. -/
def webdavUpload (reader : Option Bytes) : Except String Bytes :=
  match ioReadAll reader with
  | .error e => .error e
  | .ok data => .ok data

/-- `SyncToStorage` (sync.go lines 57-126), with the job ledger elided:
fail when the storage is disabled; otherwise run `checkExistingBackup`.
When the backup already exists, `CreateBackup` is skipped and
`backupReader` keeps its zero value nil; either way
`uploadWithBackoff → uploadWithResume → provider.Upload` receives that
reader (every branch of `uploadWithResume`, sync.go lines 290-321, ends
in `provider.Upload(ctx, filename, reader)`). -/
def SyncToStorage (upload : Option Bytes → Except String Bytes)
    (w : SyncWorld) : SyncTrace :=
  if w.storageEnabled = false then
    ⟨false, none, .error "storage is disabled"⟩
  else if w.remoteExists then
    match upload none with
    | .ok _ => ⟨false, some none, .ok ()⟩
    | .error e => ⟨false, some none, .error e⟩
  else
    match upload (some w.archive) with
    | .ok _ => ⟨true, some (some w.archive), .ok ()⟩
    | .error e => ⟨true, some (some w.archive), .error e⟩

/-! ### Retention cleanup -/

/-- `time.Now().AddDate(0, 0, -retentionDays)` (cleanup.go line 33), with
calendar days modelled as 86400-second days. -/
def cutoffTime (now retentionDays : Int) : Int :=
  now - retentionDays * 86400

/-- The batch loop of `CleanupOldSyncJobs` (cleanup.go lines 42-89): query
the IDs of up to 1000 jobs with `created_at < cutoff`; stop when there
are none; delete the rows with those IDs; stop when fewer than the
batch size were deleted, else loop.  `fuel` bounds the iterations (the
Go loop is unbounded; every non-final iteration deletes 1000 rows). -/
def cleanupLoop (cutoff : Int) : Nat → List Job → List Job
  | 0, jobs => jobs
  | fuel + 1, jobs =>
    let ids :=
      ((jobs.filter fun j => decide (j.createdAt < cutoff)).take 1000).map Job.id
    if ids = [] then jobs
    else
      let remaining := jobs.filter fun j => !decide (j.id ∈ ids)
      if (jobs.filter fun j => decide (j.id ∈ ids)).length < 1000 then remaining
      else cleanupLoop cutoff fuel remaining

/-- `CleanupOldSyncJobs` (cleanup.go lines 27-98): a no-op when
`retention_days ≤ 0`, otherwise the batched delete of every job older
than the cutoff. -/
def CleanupOldSyncJobs (retentionDays now : Int) (jobs : List Job) :
    List Job :=
  if retentionDays ≤ 0 then jobs
  else cleanupLoop (cutoffTime now retentionDays) (jobs.length + 1) jobs

/-! ### Concrete instances of the external libraries

Executable stand-ins for `archive/zip`, PBKDF2 and AES-GCM satisfying,
on the inputs where the theorems assume them, the documented library
contracts.  They exist so the witnesses can discharge those assumptions
by computation. -/

/-- A length-prefixed rendering of one zip entry. -/
def encodeEntry (e : ZipEntry) : Bytes :=
  e.name.length :: (e.name.toList.map Char.toNat
    ++ (if e.isDir then 1 else 0) :: e.content.length :: e.content)

/-- A concrete zip encoder. -/
def zipEncode (es : List ZipEntry) : Bytes :=
  es.foldr (fun e acc => encodeEntry e ++ acc) []

/-- Decode one length-prefixed entry, returning it and the remaining
bytes. -/
def decodeEntry : Bytes → Option (ZipEntry × Bytes)
  | [] => none
  | n :: rest =>
    let nameCodes := rest.take n
    let r1 := rest.drop n
    if nameCodes.length = n then
      match r1 with
      | d :: m :: r2 =>
        let content := r2.take m
        if content.length = m then
          some (⟨String.mk (nameCodes.map Char.ofNat), d == 1, content⟩, r2.drop m)
        else none
      | _ => none
    else none

/-- Decode a sequence of entries (fuelled). -/
def decodeEntries : Nat → Bytes → Option (List ZipEntry)
  | _, [] => some []
  | 0, _ => none
  | fuel + 1, bs =>
    match decodeEntry bs with
    | none => none
    | some er =>
      match decodeEntries fuel er.2 with
      | none => none
      | some es => some (er.1 :: es)

/-- The concrete zip codec used by the witnesses. -/
def zipW : ZipModel :=
  ⟨zipEncode, fun bs => decodeEntries (bs.length + 1) bs⟩

/-- The concrete crypto used by the witnesses: the KDF embeds its inputs,
sealing appends the key as an authentication tag, and opening verifies
that tag, so opening under the sealing key succeeds and opening under
any other equal-length key fails — the AES-GCM contract at the points
the theorems rely on it. -/
def cryptoW : CryptoModel where
  kdf := fun pw salt iterations keyLen => pw ++ salt ++ [iterations, keyLen]
  aeadSeal := fun key _nonce plaintext _aad => plaintext ++ key
  aeadOpen := fun key _nonce ct _aad =>
    if key.length ≤ ct.length ∧ ct.drop (ct.length - key.length) = key then
      some (ct.take (ct.length - key.length))
    else none

/-- Witness salt: the 32-byte random draw. -/
def saltW : Bytes := List.replicate 32 0

/-- Witness nonce: the 12-byte random draw. -/
def nonceW : Bytes := List.replicate 12 1

/-- Witness backup service with password "a". -/
def svcA : Service := ⟨"/data/vaultwarden", 6, "a"⟩

/-- Witness backup service with password "b". -/
def svcB : Service := ⟨"/data/vaultwarden", 6, "b"⟩

/-- Witness data directory: one regular file `a.txt` with bytes "hi". -/
def dirW : DataDir := [("a.txt", [104, 105])]

/-! ## Theorems -/

/-- C2.  For every plaintext ZIP byte sequence and non-empty password,
with the 32-byte salt and 12-byte nonce drawn by `encryptData`, the
encrypted archive is exactly salt, then nonce, then the AES-256-GCM
sealing of the ZIP bytes under the key
`pbkdf2(password, salt, 10000 iterations, 32 bytes)` with empty
additional authenticated data. -/
theorem encryptData_layout (C : CryptoModel) (password : String)
    (salt nonce data : Bytes) (hpw : password ≠ "")
    (hsalt : salt.length = 32) (hnonce : nonce.length = 12) :
    encryptData C password salt nonce data
      = salt ++ nonce
          ++ C.aeadSeal (C.kdf (strBytes password) salt 10000 32) nonce data [] := by
  simp [encryptData, List.append_assoc]

/-- Witness for C2 at a concrete password, salt, nonce and ZIP body. -/
theorem encryptData_layout_witness :
    encryptData cryptoW "a" saltW nonceW [9, 9]
      = saltW ++ nonceW
          ++ cryptoW.aeadSeal (cryptoW.kdf (strBytes "a") saltW 10000 32) nonceW [9, 9] [] :=
  encryptData_layout cryptoW "a" saltW nonceW [9, 9] (by decide) (by decide) (by decide)

/-- One step of the retry loop when the current attempt fails. -/
lemma retryLoop_fail_step {E : Type} (op : Nat → Option E) (i fuel : Nat)
    (last : Option E) (e : E) (he : op i = some e) :
    retryLoop op i (fuel + 1) last
      = ((retryLoop op (i + 1) fuel (some e)).1 + 1,
         (retryLoop op (i + 1) fuel (some e)).2) := by
  simp only [retryLoop, he]

/-- If the attempts starting at `i` fail `k` times and then succeed, the
retry loop performs `k + 1` attempts and reports success. -/
lemma retryLoop_succeeds_after {E : Type} (op : Nat → Option E) :
    ∀ (k i : Nat) (last : Option E),
      (∀ j, j < k → (op (i + j)).isSome = true) → op (i + k) = none →
      retryLoop op i (k + 1) last = (k + 1, none) := by
  intro k
  induction k with
  | zero =>
    intro i last _ hsucc
    simp only [Nat.add_zero] at hsucc
    simp [retryLoop, hsucc]
  | succ k ih =>
    intro i last hfail hsucc
    have h0 : (op i).isSome = true := by
      have := hfail 0 (Nat.succ_pos k)
      simpa using this
    obtain ⟨e, he⟩ := Option.isSome_iff_exists.1 h0
    have hrec : retryLoop op (i + 1) (k + 1) (some e) = (k + 1, none) := by
      apply ih
      · intro j hj
        have := hfail (j + 1) (by omega)
        have harg : i + (j + 1) = i + 1 + j := by omega
        rwa [harg] at this
      · have harg : i + (k + 1) = i + 1 + k := by omega
        rwa [harg] at hsucc
    rw [retryLoop_fail_step op i (k + 1) last e he, hrec]

/-- If every attempt in the window fails, the retry loop performs all of
them and reports the last attempt's error. -/
lemma retryLoop_exhausts {E : Type} (op : Nat → Option E) :
    ∀ (k i : Nat) (last : Option E),
      (∀ j, j ≤ k → (op (i + j)).isSome = true) →
      retryLoop op i (k + 1) last = (k + 1, op (i + k)) := by
  intro k
  induction k with
  | zero =>
    intro i last hfail
    obtain ⟨e, he⟩ := Option.isSome_iff_exists.1 (by simpa using hfail 0 (le_refl 0))
    simp [retryLoop, he]
  | succ k ih =>
    intro i last hfail
    obtain ⟨e, he⟩ := Option.isSome_iff_exists.1 (by simpa using hfail 0 (by omega))
    have hrec : retryLoop op (i + 1) (k + 1) (some e) = (k + 1, op (i + 1 + k)) := by
      apply ih
      intro j hj
      have := hfail (j + 1) (by omega)
      have harg : i + (j + 1) = i + 1 + j := by omega
      rwa [harg] at this
    have harg : i + (k + 1) = i + 1 + k := by omega
    rw [retryLoop_fail_step op i (k + 1) last e he, hrec, harg]

/-- C3.  The retrying upload wrapper with `maxRetries = N`: if the
operation fails on its first `N` invocations and succeeds on invocation
`N + 1`, the wrapper performs exactly `N + 1` attempts and returns
success; if the operation fails on all of its first `N + 1` invocations
(and hence would fail more than `N` times), the wrapper performs
exactly `N + 1` attempts and returns the error of the last attempt. -/
theorem uploadWithBackoff_retry_budget {E : Type} (op : Nat → Option E)
    (N : Nat) :
    ((∀ i, i < N → (op i).isSome = true) → op N = none →
      uploadWithBackoff op N = (N + 1, none))
    ∧ ((∀ i, i ≤ N → (op i).isSome = true) →
      uploadWithBackoff op N = (N + 1, op N)) := by
  constructor
  · intro hfail hsucc
    have := retryLoop_succeeds_after op N 0 none
      (by intro j hj; simpa using hfail j hj) (by simpa using hsucc)
    simpa [uploadWithBackoff] using this
  · intro hfail
    have := retryLoop_exhausts op N 0 none
      (by intro j hj; simpa using hfail j hj)
    simpa [uploadWithBackoff] using this

/-- Witness for C3 with `N = 2`: an operation failing exactly twice
succeeds on the third attempt with three attempts performed, and an
always-failing operation stops after three attempts with the third
error. -/
theorem uploadWithBackoff_retry_budget_witness :
    uploadWithBackoff (fun i => if i < 2 then some "boom" else none) 2 = (3, none)
    ∧ uploadWithBackoff (fun i => some ("fail " ++ toString i)) 2
        = (3, some "fail 2") := by
  constructor
  · exact (uploadWithBackoff_retry_budget (fun i => if i < 2 then some "boom" else none) 2).1
      (by decide) (by decide)
  · exact (uploadWithBackoff_retry_budget (fun i => some ("fail " ++ toString i)) 2).2
      (fun i _ => rfl)

/-- C6.  Evaluating the fan-out at the failing input: two enabled targets
and the one-byte archive `[7]`.  The single `bytes.Reader` returned by
`CreateBackup` is shared by both workers, so the first `io.ReadAll`
drains it and the second target's store receives no bytes at all — the
stores do not end up holding the same complete archive. -/
theorem concurrentSync_shared_reader_drained :
    ConcurrentSyncToStorages [1, 2] [7] = [(1, [7]), (2, [])]
    ∧ ¬ ∀ u ∈ ConcurrentSyncToStorages [1, 2] [7], u.2 = [7] := by
  decide

/-- C9 (amended).  `updateJobStatus` writes only the status, the message
and the timestamp column matching the new status, and never touches
`id` or `created_at`; but it sets `started_at := now` on *every* update
to `running` (not only on the pending→running transition), and
`completed_at := now` on every update to `completed` or `failed`. -/
theorem updateJobStatus_frame (now : Int) (j : Job) (st : JobStatus)
    (msg : String) :
    (updateJobStatus now j st msg).id = j.id
    ∧ (updateJobStatus now j st msg).createdAt = j.createdAt
    ∧ (updateJobStatus now j st msg).status = st
    ∧ (updateJobStatus now j st msg).message = msg
    ∧ (st = .running →
        (updateJobStatus now j st msg).startedAt = some now
        ∧ (updateJobStatus now j st msg).completedAt = j.completedAt)
    ∧ ((st = .completed ∨ st = .failed) →
        (updateJobStatus now j st msg).completedAt = some now
        ∧ (updateJobStatus now j st msg).startedAt = j.startedAt)
    ∧ (st = .pending →
        (updateJobStatus now j st msg).startedAt = j.startedAt
        ∧ (updateJobStatus now j st msg).completedAt = j.completedAt) := by
  cases st <;> simp [updateJobStatus]

/-- Witness for C9: a running job updated to `completed` at time 9. -/
theorem updateJobStatus_frame_witness :
    (updateJobStatus 9 ⟨1, .running, "m", 0, some 5, none⟩ .completed "done").completedAt
        = some 9
    ∧ (updateJobStatus 9 ⟨1, .running, "m", 0, some 5, none⟩ .completed "done").startedAt
        = some 5 :=
  (updateJobStatus_frame 9 ⟨1, .running, "m", 0, some 5, none⟩ .completed "done").2.2.2.2.2.1
    (Or.inl rfl)

/-- C9 counterexample to the claim as stated: a job already in `running`
with `started_at = 5` receives another `running` update (the code issues
several per sync: "Creating backup...", "Uploading backup...", retry
notes) and its `started_at` is overwritten with the new time instead of
being kept. -/
theorem updateJobStatus_overwrites_startedAt :
    (⟨1, .running, "m", 0, some 5, none⟩ : Job).status = .running
    ∧ (⟨1, .running, "m", 0, some 5, none⟩ : Job).startedAt = some 5
    ∧ (updateJobStatus 9 ⟨1, .running, "m", 0, some 5, none⟩ .running
        "Uploading backup...").startedAt = some 9 := by
  decide

/-- C10.  When the storage is enabled and the provider reports that the
timestamp-derived filename already exists, `SyncToStorage` skips
`CreateBackup` and invokes the provider `Upload` with the nil reader,
and the WebDAV `Upload` passes that nil reader straight to
`io.ReadAll`, which faults. -/
theorem syncToStorage_nil_reader (w : SyncWorld)
    (hen : w.storageEnabled = true) (hex : w.remoteExists = true) :
    (SyncToStorage webdavUpload w).backupCreated = false
    ∧ (SyncToStorage webdavUpload w).uploadArg = some none
    ∧ webdavUpload none = ioReadAll none
    ∧ (SyncToStorage webdavUpload w).result
        = .error "runtime error: invalid memory address or nil pointer dereference" := by
  simp [SyncToStorage, hen, hex, webdavUpload, ioReadAll]

/-- Witness for C10 at a concrete world: enabled storage, existing remote
backup, archive `[7]`. -/
theorem syncToStorage_nil_reader_witness :
    (SyncToStorage webdavUpload ⟨true, true, [7]⟩).backupCreated = false
    ∧ (SyncToStorage webdavUpload ⟨true, true, [7]⟩).uploadArg = some none
    ∧ webdavUpload none = ioReadAll none
    ∧ (SyncToStorage webdavUpload ⟨true, true, [7]⟩).result
        = .error "runtime error: invalid memory address or nil pointer dereference" :=
  syncToStorage_nil_reader ⟨true, true, [7]⟩ rfl rfl

/-- A decimal digit character is never a dot. -/
lemma digitChar_ne_dot (n : Nat) : digitChar n ≠ '.' := by
  unfold digitChar
  have h : n % 10 < 10 := Nat.mod_lt _ (by norm_num)
  revert h
  generalize n % 10 = k
  intro h
  interval_cases k <;> decide

/-- No character of a rendered timestamp is a dot. -/
lemma timestampChars_ne_dot (w : Nat) : ∀ c ∈ timestampChars w, c ≠ '.' := by
  intro c hc
  unfold timestampChars at hc
  simp only [List.mem_cons, List.not_mem_nil, or_false] at hc
  rcases hc with h | h | h | h | h | h | h | h | h | h | h | h | h | h | h <;>
    subst h <;> first | exact digitChar_ne_dot _ | decide

/-- Replacing the first `.zip` in a string that ends in `.zip` and whose
remaining characters contain no dot rewrites exactly that suffix. -/
lemma replaceFirstAux_zip (rep : List Char) :
    ∀ (l : List Char), (∀ c ∈ l, c ≠ '.') →
      replaceFirstAux ".zip".toList rep (l ++ ".zip".toList) = l ++ rep := by
  have hz : ".zip".toList = ['.', 'z', 'i', 'p'] := rfl
  intro l
  induction l with
  | nil =>
    intro _
    rw [hz]
    simp [replaceFirstAux, List.isPrefixOf]
  | cons c l ih =>
    intro h
    have hc : c ≠ '.' := h c (List.mem_cons_self c l)
    have hbeq : ('.' == c) = false := by
      rw [beq_eq_false_iff_ne]
      exact fun hh => hc hh.symm
    have hpre : ¬ ((".zip".toList).isPrefixOf (c :: (l ++ ".zip".toList)) = true) := by
      rw [hz]
      simp [List.isPrefixOf, hbeq]
    rw [List.cons_append, List.cons_append]
    rw [show replaceFirstAux ".zip".toList rep (c :: (l ++ ".zip".toList))
        = if (".zip".toList).isPrefixOf (c :: (l ++ ".zip".toList)) then
            rep ++ (c :: (l ++ ".zip".toList)).drop (".zip".toList).length
          else c :: replaceFirstAux ".zip".toList rep (l ++ ".zip".toList) from rfl]
    rw [if_neg hpre]
    exact congrArg (c :: ·) (ih (fun d hd => h d (List.mem_cons_of_mem c hd)))

/-- C8 (amended).  The archive builder's filename is
`vaultwarden-backup-<ts>.zip`, with `.zip` replaced by `.enc` when a
password is configured, where `ts` is the current wall time rendered in
the clock's own (local) time zone — `unixSeconds + offsetSeconds` — not
necessarily in UTC. -/
theorem createBackup_filename (C : CryptoModel) (Z : ZipModel) (s : Service)
    (dir : DataDir) (salt nonce : Bytes) (now : GoTime) :
    (s.password = "" →
      (CreateBackup C Z s dir salt nonce now).2
        = String.mk ("vaultwarden-backup-".toList ++ (goFormat now).toList
            ++ ".zip".toList))
    ∧ (s.password ≠ "" →
      (CreateBackup C Z s dir salt nonce now).2
        = String.mk ("vaultwarden-backup-".toList ++ (goFormat now).toList
            ++ ".enc".toList)) := by
  constructor
  · intro hpw
    simp [CreateBackup, hpw]
  · intro hpw
    have hnodot : ∀ c ∈ "vaultwarden-backup-".toList ++ (goFormat now).toList,
        c ≠ '.' := by
      intro c hc
      rcases List.mem_append.1 hc with h | h
      · have hlit : ∀ d ∈ "vaultwarden-backup-".toList, d ≠ '.' := by decide
        exact hlit c h
      · exact timestampChars_ne_dot _ c h
    have haux := replaceFirstAux_zip ".enc".toList
      ("vaultwarden-backup-".toList ++ (goFormat now).toList) hnodot
    simp only [CreateBackup, if_pos hpw, replaceFirst]
    rw [show (String.mk ("vaultwarden-backup-".toList ++ (goFormat now).toList
        ++ ".zip".toList)).toList
      = ("vaultwarden-backup-".toList ++ (goFormat now).toList) ++ ".zip".toList
      from by simp [String.toList]]
    rw [haux]

/-- Witness for C8 at the epoch in a zone one hour east of UTC. -/
theorem createBackup_filename_witness :
    (CreateBackup cryptoW zipW svcA dirW saltW nonceW ⟨0, 3600⟩).2
      = String.mk ("vaultwarden-backup-".toList ++ (goFormat ⟨0, 3600⟩).toList
          ++ ".enc".toList) :=
  (createBackup_filename cryptoW zipW svcA dirW saltW nonceW ⟨0, 3600⟩).2
    (by decide)

/-- C8 counterexample to the claim as stated: at the epoch instant on a
host one hour east of UTC, the builder names the file after the local
wall clock `19700101-010000`, not after the UTC rendering
`19700101-000000` the claim requires (the code formats `time.Now()`,
which carries the local zone, without converting to UTC). -/
theorem createBackup_filename_not_utc :
    (CreateBackup cryptoW zipW ⟨"/d", 6, ""⟩ dirW saltW nonceW ⟨0, 3600⟩).2
      ≠ String.mk ("vaultwarden-backup-".toList
          ++ (specUtcTimestamp ⟨0, 3600⟩).toList ++ ".zip".toList) := by
  decide

/-- With a password set, `CreateBackup` returns exactly the `encryptData`
bytes of the zip of the walked directory. -/
lemma createBackup_data (C : CryptoModel) (Z : ZipModel) (s : Service)
    (dir : DataDir) (salt nonce : Bytes) (now : GoTime)
    (hpw : s.password ≠ "") :
    (CreateBackup C Z s dir salt nonce now).1
      = salt ++ (nonce
          ++ C.aeadSeal (C.kdf (strBytes s.password) salt 10000 32) nonce
              (Z.enc (dirEntries dir)) []) := by
  simp [CreateBackup, hpw, encryptData, createZipArchive]

/-- `DecryptData` on a well-formed `salt ‖ nonce ‖ sealed` buffer: it
re-derives the key from the leading 32 bytes and opens the rest. -/
lemma decryptData_layout (C : CryptoModel) (s : Service)
    (salt nonce rest : Bytes) (hpw : ¬ s.password = "")
    (hsalt : salt.length = 32) (hnonce : nonce.length = 12) :
    DecryptData C s (salt ++ (nonce ++ rest))
      = match C.aeadOpen (C.kdf (strBytes s.password) salt 10000 32) nonce
            rest [] with
        | some pt => .ok pt
        | none => .error "cipher: message authentication failed" := by
  have hlen : ¬ (salt ++ (nonce ++ rest)).length < 32 := by
    simp [hsalt, hnonce]
  have htake : (salt ++ (nonce ++ rest)).take 32 = salt := List.take_left' hsalt
  have hdrop : (salt ++ (nonce ++ rest)).drop 32 = nonce ++ rest :=
    List.drop_left' hsalt
  have htake2 : (nonce ++ rest).take 12 = nonce := List.take_left' hnonce
  have hdrop2 : (nonce ++ rest).drop 12 = rest := List.drop_left' hnonce
  have hlen2 : ¬ (nonce ++ rest).length < 12 := by
    simp [hnonce]
  simp only [DecryptData, if_neg hpw, if_neg hlen, htake, hdrop, htake2, hdrop2,
    if_neg hlen2]

/-- The extraction loop writes exactly the non-directory entries whose
name does not contain `..`, each under the destination. -/
lemma extractEntries_eq (dest : String) (entries : List ZipEntry) :
    extractEntries dest entries
      = (entries.filter fun e => !stringContains e.name ".." && !e.isDir).map
          (fun e => (joinPath dest e.name, e.content)) := by
  induction entries with
  | nil => rfl
  | cons e rest ih =>
    by_cases h1 : stringContains e.name ".." = true
    · simp [extractEntries, h1, List.filter_cons, ih]
    · by_cases h2 : e.isDir = true
      · simp [extractEntries, h1, h2, List.filter_cons, ih]
      · simp [extractEntries, h1, h2, List.filter_cons, ih]

/-- On the entries of a directory walk whose relative paths contain no
`..`, the extraction loop writes every file to its joined path. -/
lemma extractEntries_dirFiles (dest : String) (dir : DataDir)
    (hnames : ∀ f ∈ dir, stringContains f.1 ".." = false) :
    extractEntries dest (dirEntries dir)
      = dir.map fun f => (joinPath dest f.1, f.2) := by
  rw [extractEntries_eq]
  have hfil : (dirEntries dir).filter
      (fun e => !stringContains e.name ".." && !e.isDir) = dirEntries dir := by
    rw [List.filter_eq_self]
    intro e he
    obtain ⟨f, hf, rfl⟩ := List.mem_map.1 he
    simp [hnames f hf]
  rw [hfil, dirEntries, List.map_map]
  rfl

/-- C1 (amended).  For every data directory whose relative file paths do
not contain the substring `..`, and every non-empty password,
extracting the stream produced by `CreateBackup` with `ExtractBackup`
under the same password writes back exactly the directory's regular
files, byte for byte, at the same relative paths under the destination.
The AES-GCM and zip assumptions are the library contracts at the values
used: opening what was sealed under the same key and nonce returns the
plaintext, and reading back a written zip returns its entries. -/
theorem createBackup_extractBackup_roundtrip
    (C : CryptoModel) (Z : ZipModel) (s : Service) (dir : DataDir)
    (dest : String) (salt nonce : Bytes) (now : GoTime)
    (hpw : s.password ≠ "")
    (hsalt : salt.length = 32) (hnonce : nonce.length = 12)
    (hopen : C.aeadOpen (C.kdf (strBytes s.password) salt 10000 32) nonce
        (C.aeadSeal (C.kdf (strBytes s.password) salt 10000 32) nonce
          (Z.enc (dirEntries dir)) []) []
      = some (Z.enc (dirEntries dir)))
    (hzip : Z.dec (Z.enc (dirEntries dir)) = some (dirEntries dir))
    (hnames : ∀ f ∈ dir, stringContains f.1 ".." = false) :
    ExtractBackup C Z s (CreateBackup C Z s dir salt nonce now).1 dest
      = (dir.map fun f => (joinPath dest f.1, f.2), none) := by
  rw [createBackup_data C Z s dir salt nonce now hpw]
  have hgt : (salt ++ (nonce
      ++ C.aeadSeal (C.kdf (strBytes s.password) salt 10000 32) nonce
          (Z.enc (dirEntries dir)) [])).length > 32 := by
    simp [hsalt, hnonce]
  rw [ExtractBackup, if_pos ⟨hpw, hgt⟩,
    decryptData_layout C s _ _ _ hpw hsalt hnonce, hopen]
  show extractZip Z (Z.enc (dirEntries dir)) dest = _
  simp only [extractZip, hzip]
  rw [extractEntries_dirFiles dest dir hnames]

/-- Witness for C1 at the concrete library instances, directory `dirW`,
password "a", and fixed salt and nonce. -/
theorem createBackup_extractBackup_roundtrip_witness :
    ExtractBackup cryptoW zipW svcA
        (CreateBackup cryptoW zipW svcA dirW saltW nonceW ⟨0, 0⟩).1 "/restore"
      = (dirW.map fun f => (joinPath "/restore" f.1, f.2), none) :=
  createBackup_extractBackup_roundtrip cryptoW zipW svcA dirW "/restore"
    saltW nonceW ⟨0, 0⟩ (by decide) (by decide) (by decide) (by decide)
    (by decide) (by decide)

/-- C1 counterexample to the claim as stated: the data directory with the
single regular file `a..b` (a legal file name containing `..` but no
traversal segment) round-trips to an empty destination — the extraction
loop skips every entry whose name merely contains `..`, so the file is
lost and the claim's "reproduces exactly the regular files of D" fails. -/
theorem roundtrip_fails_on_dotdot_name :
    (ExtractBackup cryptoW zipW svcA
        (CreateBackup cryptoW zipW svcA [("a..b", [104])] saltW nonceW
          ⟨0, 0⟩).1 "/restore").1 = []
    ∧ ([(("a..b" : String), ([104] : Bytes))].map
        fun f => (joinPath "/restore" f.1, f.2)) ≠ [] := by
  decide

/-- C4.  Building with password P and extracting with a different
configured password P' fails with the authentication error and performs
no file write.  The assumption is the AES-GCM integrity contract at the
values used: opening under the key derived from the other password does
not authenticate. -/
theorem extractBackup_wrong_password
    (C : CryptoModel) (Z : ZipModel) (s s' : Service) (dir : DataDir)
    (dest : String) (salt nonce : Bytes) (now : GoTime)
    (hpw : s.password ≠ "") (hpw' : s'.password ≠ "")
    (hne : s'.password ≠ s.password)
    (hsalt : salt.length = 32) (hnonce : nonce.length = 12)
    (hdeny : C.aeadOpen (C.kdf (strBytes s'.password) salt 10000 32) nonce
        (C.aeadSeal (C.kdf (strBytes s.password) salt 10000 32) nonce
          (Z.enc (dirEntries dir)) []) []
      = none) :
    ExtractBackup C Z s' (CreateBackup C Z s dir salt nonce now).1 dest
      = ([], some "failed to decrypt backup: cipher: message authentication failed") := by
  rw [createBackup_data C Z s dir salt nonce now hpw]
  have hgt : (salt ++ (nonce
      ++ C.aeadSeal (C.kdf (strBytes s.password) salt 10000 32) nonce
          (Z.enc (dirEntries dir)) [])).length > 32 := by
    simp [hsalt, hnonce]
  rw [ExtractBackup, if_pos ⟨hpw', hgt⟩,
    decryptData_layout C s' _ _ _ hpw' hsalt hnonce, hdeny]
  rfl

/-- Witness for C4: password "a" to build, password "b" to extract, with
the concrete library instances (where wrong-key opening fails). -/
theorem extractBackup_wrong_password_witness :
    ExtractBackup cryptoW zipW svcB
        (CreateBackup cryptoW zipW svcA dirW saltW nonceW ⟨0, 0⟩).1 "/restore"
      = ([], some "failed to decrypt backup: cipher: message authentication failed") :=
  extractBackup_wrong_password cryptoW zipW svcA svcB dirW "/restore"
    saltW nonceW ⟨0, 0⟩ (by decide) (by decide) (by decide) (by decide)
    (by decide) (by decide)

/-- C5 (amended).  On a plain archive, `ExtractBackup` skips every entry
whose name contains the substring `..` (hence in particular every entry
with a traversal segment) and writes nothing outside the destination:
the writes are exactly the non-directory entries without that
substring, each at the joined path under the destination. -/
theorem extractBackup_skips_dotdot
    (C : CryptoModel) (Z : ZipModel) (s : Service) (data : Bytes)
    (dest : String) (entries : List ZipEntry)
    (hpw : s.password = "") (hdec : Z.dec data = some entries) :
    (ExtractBackup C Z s data dest).1
      = (entries.filter fun e => !stringContains e.name ".." && !e.isDir).map
          (fun e => (joinPath dest e.name, e.content))
    ∧ ∀ w ∈ (ExtractBackup C Z s data dest).1,
        ∃ n, stringContains n ".." = false ∧ w.1 = joinPath dest n := by
  have hcond : ¬ (s.password ≠ "" ∧ data.length > 32) := by
    intro h
    exact h.1 hpw
  have hval : (ExtractBackup C Z s data dest).1
      = (entries.filter fun e => !stringContains e.name ".." && !e.isDir).map
          (fun e => (joinPath dest e.name, e.content)) := by
    rw [ExtractBackup, if_neg hcond, extractZip, hdec]
    exact extractEntries_eq dest entries
  refine ⟨hval, ?_⟩
  intro w hw
  rw [hval] at hw
  obtain ⟨e, he, hwe⟩ := List.mem_map.1 hw
  have hkeep := (List.mem_filter.1 he).2
  refine ⟨e.name, ?_, by rw [← hwe]⟩
  rw [Bool.and_eq_true] at hkeep
  simpa using hkeep.1

/-- Witness for C5 at a concrete plain archive with a traversal entry, a
directory entry and a clean file entry. -/
theorem extractBackup_skips_dotdot_witness :
    (ExtractBackup cryptoW zipW ⟨"/d", 6, ""⟩
        (zipW.enc [⟨"a/../x", false, [1]⟩, ⟨"sub", true, []⟩, ⟨"ok.txt", false, [2]⟩])
        "/restore").1
      = [(joinPath "/restore" "ok.txt", [2])]
    ∧ ∀ w ∈ (ExtractBackup cryptoW zipW ⟨"/d", 6, ""⟩
        (zipW.enc [⟨"a/../x", false, [1]⟩, ⟨"sub", true, []⟩, ⟨"ok.txt", false, [2]⟩])
        "/restore").1,
        ∃ n, stringContains n ".." = false ∧ w.1 = joinPath "/restore" n := by
  have h := extractBackup_skips_dotdot cryptoW zipW ⟨"/d", 6, ""⟩
    (zipW.enc [⟨"a/../x", false, [1]⟩, ⟨"sub", true, []⟩, ⟨"ok.txt", false, [2]⟩])
    "/restore" [⟨"a/../x", false, [1]⟩, ⟨"sub", true, []⟩, ⟨"ok.txt", false, [2]⟩]
    (by decide) (by decide)
  exact ⟨h.1.trans (by decide), h.2⟩

/-- A `/`-separated component of the name equal to `..` — the claim's
"parent-directory traversal segment".  Modelled from the spec's words. -/
def splitSegs : List Char → List (List Char)
  | [] => [[]]
  | c :: rest =>
    if c = '/' then [] :: splitSegs rest
    else
      match splitSegs rest with
      | [] => [[c]]
      | s :: ss => (c :: s) :: ss

/-- Does the name have a `..` path segment?  Modelled from the spec's
words, for comparison with the code's substring test. -/
def specHasDotDotSegment (n : String) : Bool :=
  (splitSegs n.toList).contains ['.', '.']

/-- C5 counterexample to the claim as stated: in an archive holding
`a/../x` (a traversal segment) and `a..b` (no traversal segment, merely
the substring), extraction writes nothing at all — the entry `a..b`,
which the claim says "is still extracted", is skipped too, because the
code tests `strings.Contains(name, "..")`. -/
theorem extractBackup_skips_nontraversal_name :
    specHasDotDotSegment "a/../x" = true
    ∧ specHasDotDotSegment "a..b" = false
    ∧ (ExtractBackup cryptoW zipW ⟨"/d", 6, ""⟩
        (zipW.enc [⟨"a/../x", false, [1]⟩, ⟨"a..b", false, [2]⟩])
        "/restore")
      = ([], none) := by
  decide

/-- Deleting by the IDs of a sublist removes exactly that sublist, when
IDs are unique: the rows whose ID is among the sublist's IDs are the
sublist itself. -/
lemma filter_idMem_of_sublist :
    ∀ {s l : List Job}, List.Sublist s l → ((l.map Job.id).Nodup) →
      l.filter (fun j => decide (j.id ∈ s.map Job.id)) = s := by
  intro s l hsub
  induction hsub with
  | slnil => intro _; rfl
  | @cons l₁ l₂ a hs ih =>
    intro hnd
    rw [List.map_cons, List.nodup_cons] at hnd
    have hpa : ¬ (a.id ∈ l₁.map Job.id) := fun hmem => by
      obtain ⟨b, hb, hidb⟩ := List.mem_map.1 hmem
      exact hnd.1 (hidb ▸ List.mem_map_of_mem Job.id (hs.subset hb))
    rw [List.filter_cons, if_neg (by simpa using hpa)]
    exact ih hnd.2
  | @cons₂ l₁ l₂ a hs ih =>
    intro hnd
    rw [List.map_cons, List.nodup_cons] at hnd
    rw [List.filter_cons, if_pos (by simp)]
    have hcongr : l₂.filter (fun j => decide (j.id ∈ (a :: l₁).map Job.id))
        = l₂.filter (fun j => decide (j.id ∈ l₁.map Job.id)) := by
      apply List.filter_congr
      intro j hj
      have hjne : j.id ≠ a.id := fun he =>
        hnd.1 (he ▸ List.mem_map_of_mem Job.id hj)
      rw [decide_eq_decide]
      simp [hjne]
    rw [hcongr, ih hnd.2]

/-- The batched delete loop, run with enough fuel on a table with unique
IDs, removes exactly the rows older than the cutoff. -/
lemma cleanupLoop_filters (cutoff : Int) :
    ∀ (fuel : Nat) (jobs : List Job), (jobs.map Job.id).Nodup →
      jobs.length < fuel * 1000 →
      cleanupLoop cutoff fuel jobs
        = jobs.filter fun j => !decide (j.createdAt < cutoff) := by
  intro fuel
  induction fuel with
  | zero =>
    intro jobs _ hlen
    exact absurd hlen (by omega)
  | succ fuel ih =>
    intro jobs hnd hlen
    by_cases hids :
        ((jobs.filter fun j => decide (j.createdAt < cutoff)).take 1000).map Job.id
          = []
    · have hF : jobs.filter (fun j => decide (j.createdAt < cutoff)) = [] := by
        rcases List.take_eq_nil_iff.1 (List.map_eq_nil_iff.1 hids) with h | h
        · exact absurd h (by omega)
        · exact h
      have hres : cleanupLoop cutoff (fuel + 1) jobs = jobs := by
        simp only [cleanupLoop]
        rw [if_pos hids]
      rw [hres]
      symm
      rw [List.filter_eq_self]
      intro j hj
      have := List.filter_eq_nil_iff.1 hF j hj
      simpa using this
    · have hsubt : List.Sublist
          ((jobs.filter fun j => decide (j.createdAt < cutoff)).take 1000) jobs :=
        (List.take_sublist _ _).trans (List.filter_sublist _)
      have hfin := filter_idMem_of_sublist hsubt hnd
      have hmemold : ∀ j ∈ jobs,
          (decide (j.id ∈
            ((jobs.filter fun j => decide (j.createdAt < cutoff)).take
              1000).map Job.id) = true)
          → decide (j.createdAt < cutoff) = true := by
        intro j hj hmem
        obtain ⟨b, hb, hidb⟩ := List.mem_map.1 (of_decide_eq_true hmem)
        have hbF : b ∈ jobs.filter fun j => decide (j.createdAt < cutoff) :=
          List.take_subset _ _ hb
        have hbj : b = j :=
          List.inj_on_of_nodup_map hnd (List.mem_of_mem_filter hbF) hj hidb
        have hbold : decide (b.createdAt < cutoff) = true :=
          (List.mem_filter.1 hbF).2
        exact hbj ▸ hbold
      by_cases hsmall : (jobs.filter fun j => decide (j.id ∈
          ((jobs.filter fun j => decide (j.createdAt < cutoff)).take 1000).map
            Job.id)).length < 1000
      · have hres : cleanupLoop cutoff (fuel + 1) jobs
            = jobs.filter fun j => !decide (j.id ∈
                ((jobs.filter fun j => decide (j.createdAt < cutoff)).take
                  1000).map Job.id) := by
          simp only [cleanupLoop]
          rw [if_neg hids, if_pos hsmall]
        rw [hres]
        have htlen : ((jobs.filter fun j => decide (j.createdAt < cutoff)).take
            1000).length < 1000 := by
          rw [← hfin]
          exact hsmall
        have hFlen : (jobs.filter fun j => decide (j.createdAt < cutoff)).length
            < 1000 := by
          have hmin := List.length_take 1000
            (jobs.filter fun j => decide (j.createdAt < cutoff))
          omega
        have ht : (jobs.filter fun j => decide (j.createdAt < cutoff)).take 1000
            = jobs.filter fun j => decide (j.createdAt < cutoff) :=
          List.take_of_length_le (by omega)
        apply List.filter_congr
        intro j hj
        by_cases hOld : decide (j.createdAt < cutoff) = true
        · by_cases hIn : decide (j.id ∈
              ((jobs.filter fun j => decide (j.createdAt < cutoff)).take
                1000).map Job.id) = true
          · rw [hIn, hOld]
          · exfalso
            apply hIn
            rw [decide_eq_true_eq, ht]
            exact List.mem_map_of_mem Job.id
              (List.mem_filter.2 ⟨hj, hOld⟩)
        · have hIn : decide (j.id ∈
              ((jobs.filter fun j => decide (j.createdAt < cutoff)).take
                1000).map Job.id) = false := by
            by_cases h : decide (j.id ∈
                ((jobs.filter fun j => decide (j.createdAt < cutoff)).take
                  1000).map Job.id) = true
            · exact absurd (hmemold j hj h) hOld
            · simpa using h
          rw [hIn, Bool.eq_false_iff.2 hOld]
      · have hres : cleanupLoop cutoff (fuel + 1) jobs
            = cleanupLoop cutoff fuel (jobs.filter fun j => !decide (j.id ∈
                ((jobs.filter fun j => decide (j.createdAt < cutoff)).take
                  1000).map Job.id)) := by
          simp only [cleanupLoop]
          rw [if_neg hids, if_neg hsmall]
        rw [hres]
        have hremsub : List.Sublist (jobs.filter fun j => !decide (j.id ∈
            ((jobs.filter fun j => decide (j.createdAt < cutoff)).take
              1000).map Job.id)) jobs := List.filter_sublist _
        have hndrem : ((jobs.filter fun j => !decide (j.id ∈
            ((jobs.filter fun j => decide (j.createdAt < cutoff)).take
              1000).map Job.id)).map Job.id).Nodup :=
          hnd.sublist (hremsub.map Job.id)
        have hsplit := List.length_eq_length_filter_add
          (fun j => decide (j.id ∈
            ((jobs.filter fun j => decide (j.createdAt < cutoff)).take
              1000).map Job.id)) (l := jobs)
        have hlrem : (jobs.filter fun j => !decide (j.id ∈
            ((jobs.filter fun j => decide (j.createdAt < cutoff)).take
              1000).map Job.id)).length < fuel * 1000 := by
          omega
        rw [ih _ hndrem hlrem, List.filter_filter]
        apply List.filter_congr
        intro j hj
        by_cases hOld : decide (j.createdAt < cutoff) = true
        · rw [hOld]
          simp
        · have hIn : decide (j.id ∈
              ((jobs.filter fun j => decide (j.createdAt < cutoff)).take
                1000).map Job.id) = false := by
            by_cases h : decide (j.id ∈
                ((jobs.filter fun j => decide (j.createdAt < cutoff)).take
                  1000).map Job.id) = true
            · exact absurd (hmemold j hj h) hOld
            · simpa using h
          rw [hIn, Bool.eq_false_iff.2 hOld]
          simp

/-- C7.  One cleanup pass with retention window `D > 0` deletes exactly
the jobs created strictly before `now − D` days and keeps every job
created on or after the cutoff; with `D ≤ 0` retention is disabled and
nothing is deleted.  Job IDs are unique (the ledger's primary key). -/
theorem cleanupOldSyncJobs_retention (jobs : List Job) (D now : Int)
    (hids : (jobs.map Job.id).Nodup) :
    (0 < D → CleanupOldSyncJobs D now jobs
        = jobs.filter fun j => !decide (j.createdAt < cutoffTime now D))
    ∧ (0 < D → ∀ j ∈ jobs, cutoffTime now D ≤ j.createdAt →
        j ∈ CleanupOldSyncJobs D now jobs)
    ∧ (0 < D → ∀ j ∈ CleanupOldSyncJobs D now jobs,
        cutoffTime now D ≤ j.createdAt)
    ∧ (D ≤ 0 → CleanupOldSyncJobs D now jobs = jobs) := by
  have hmain : 0 < D → CleanupOldSyncJobs D now jobs
      = jobs.filter fun j => !decide (j.createdAt < cutoffTime now D) := by
    intro hD
    rw [CleanupOldSyncJobs, if_neg (by omega)]
    exact cleanupLoop_filters (cutoffTime now D) (jobs.length + 1) jobs hids
      (by omega)
  refine ⟨hmain, ?_, ?_, ?_⟩
  · intro hD j hj hcreated
    rw [hmain hD]
    refine List.mem_filter.2 ⟨hj, ?_⟩
    simpa using Int.not_lt.2 hcreated
  · intro hD j hj
    rw [hmain hD] at hj
    have := (List.mem_filter.1 hj).2
    simp only [Bool.not_eq_true', decide_eq_false_iff_not, Int.not_lt] at this
    exact this
  · intro hD
    rw [CleanupOldSyncJobs, if_pos hD]

/-- Seeded ledger for the C7 witness: jobs created now, ten days ago and
forty days ago (in seconds, `now = 8640000`). -/
def jobsW : List Job :=
  [⟨1, .completed, "", 8640000, none, none⟩,
   ⟨2, .completed, "", 7776000, none, none⟩,
   ⟨3, .completed, "", 5184000, none, none⟩]

/-- Witness for C7: with a 30-day window only the forty-day-old job is
deleted. -/
theorem cleanupOldSyncJobs_retention_witness :
    CleanupOldSyncJobs 30 8640000 jobsW
      = [⟨1, .completed, "", 8640000, none, none⟩,
         ⟨2, .completed, "", 7776000, none, none⟩] :=
  ((cleanupOldSyncJobs_retention jobsW 30 8640000 (by decide)).1
    (by decide)).trans (by decide)

end Syncer
